import Mathlib

/-!
Verification development for the ObsiWiki reverse-sync module
(`wiki-to-obsidian.py`).  The dialect converter (the three regex passes of
`apply_reverse_conversions`) is embedded as executable functions over
`List Char`, mirroring Python `re.sub` semantics (leftmost scan,
non-overlapping matches, greedy quantifiers with backtracking) for the three
concrete patterns of the source.  The sync orchestrator (`sync_from_wiki`)
is embedded as a state-transition function over an explicit repository
state, with the version-control collaborator abstracted into an
environment of oracle outputs and an optional failing call site.
-/

namespace ObsiWiki

/-! ## Basic text helpers (List Char level) -/

/-- Python whitespace for `str.strip` (ASCII subset). -/
def isSpaceChar (c : Char) : Bool :=
  c = ' ' || c = '\t' || c = '\n' || c = '\r' || c = '\x0b' || c = '\x0c'

/-- Python `str.strip()` on a char list. -/
def trimL (l : List Char) : List Char :=
  ((l.dropWhile isSpaceChar).reverse.dropWhile isSpaceChar).reverse

/-- Greedy span: longest front segment satisfying `p`, and the rest.
Models a greedy character-class quantifier of a regex. -/
def spanP (p : Char → Bool) : List Char → List Char × List Char
  | [] => ([], [])
  | c :: r =>
    if p c then ((c :: (spanP p r).1), (spanP p r).2)
    else ([], c :: r)

/-- Is `n` a front segment of `l`? -/
def isPrefL : List Char → List Char → Bool
  | [], _ => true
  | _ :: _, [] => false
  | a :: as, b :: bs => a = b && isPrefL as bs

/-- Is `n` a back segment of `l`? -/
def isSufL (n l : List Char) : Bool := isPrefL n.reverse l.reverse

/-- Python `needle in hay` (contiguous substring test). -/
def subListL (n : List Char) : List Char → Bool
  | [] => isPrefL n []
  | c :: r => isPrefL n (c :: r) || subListL n r

/-- Python `needle in hay` on strings. -/
def strIn (needle hay : String) : Bool := subListL needle.toList hay.toList

/-- Python `s.split(sep)` for a single separator char. -/
def splitOnChar (sep : Char) : List Char → List (List Char)
  | [] => [[]]
  | c :: r =>
    if c = sep then [] :: splitOnChar sep r
    else
      match splitOnChar sep r with
      | [] => [[c]]
      | h :: t => (c :: h) :: t

/-- `"-"` to `" "`, as in `filename.replace("-", " ")`. -/
def hyphToSpace (c : Char) : Char := if c = '-' then ' ' else c

/-- `" "` to `"-"`, the mirror replacement used by the forward direction. -/
def spaceToHyph (c : Char) : Char := if c = ' ' then '-' else c

/-- Python `str.title()` (ASCII model): an alphabetic char is uppercased
after a non-alphabetic char (or at the start) and lowercased after an
alphabetic char; other chars pass through. -/
def pyTitleAux : Bool → List Char → List Char
  | _, [] => []
  | prev, c :: rest =>
    if c.isAlpha then
      (if prev then c.toLower else c.toUpper) :: pyTitleAux true rest
    else c :: pyTitleAux false rest

def pyTitle (l : List Char) : List Char := pyTitleAux false l

/-! ## Pass 1: page links
`re.sub(r'([^!]?)\[\[([^|\]]+)\|([^|\]]+)\]\]', reverse_page_links, text)`
(source lines 74-84 and 123-125). -/

/-- Character class `[^|\]]` of the page-link pattern. -/
def pageStop (c : Char) : Bool := c ≠ '|' && c ≠ ']'

/-- Match `\[\[([^|\]]+)\|([^|\]]+)\]\]` at the head of the input,
returning the two groups and the rest.  The greedy classes stop at the
first `|` or `]`, and backtracking cannot produce any other split, so this
deterministic parse is exactly the regex semantics. -/
def matchCore1 : List Char → Option (List Char × List Char × List Char)
  | '[' :: '[' :: rest =>
    match spanP pageStop rest with
    | (g2, '|' :: r2) =>
      if g2 = [] then none
      else
        match spanP pageStop r2 with
        | (g3, ']' :: ']' :: rem) =>
          if g3 = [] then none else some (g2, g3, rem)
        | _ => none
    | _ => none
  | _ => none

/-- Replacement of `reverse_page_links` (without the captured one-char
group, which the caller re-attaches):
`[[{filename.replace("-"," ")}|{linktext}]]`. -/
def repl1 (g2 g3 : List Char) : List Char :=
  '[' :: '[' :: (g3.map hyphToSpace) ++ '|' :: g2 ++ [']', ']']

/-- One match attempt of pass 1 at the current position: the greedy
optional group `([^!]?)` first consumes one non-`!` char, and backtracks to
the empty match if the core fails; after a `!` only the empty-group
alternative remains, and the core then needs `[` at the `!` itself, so no
match starts on a `!`. -/
def tryMatch1 : List Char → Option (List Char × List Char)
  | [] => none
  | c :: rest =>
    if c ≠ '!' then
      match matchCore1 rest with
      | some (g2, g3, rem) => some (c :: repl1 g2 g3, rem)
      | none =>
        match matchCore1 (c :: rest) with
        | some (g2, g3, rem) => some (repl1 g2 g3, rem)
        | none => none
    else none

/-- `re.sub` scan for pass 1: try a match at each position, replace and
continue after the match, otherwise advance one char.  Fuel is the input
length; every step consumes at least one char, so it never runs out. -/
def sub1 : Nat → List Char → List Char
  | 0, l => l
  | _ + 1, [] => []
  | n + 1, c :: rest =>
    match tryMatch1 (c :: rest) with
    | some (repl, rem) => repl ++ sub1 n rem
    | none => c :: sub1 n rest

/-- Pass 1 of `apply_reverse_conversions`: page-link reversal. -/
def reverse_page_links (s : String) : String :=
  ⟨sub1 s.toList.length s.toList⟩

/-! ## Pass 2: header links
`re.sub(r'\[([^\]]+)\]\(#([^)]+)\)', reverse_header_links, text)`
(source lines 86-95 and 127-129). -/

def notRBracket (c : Char) : Bool := c ≠ ']'
def notRParen (c : Char) : Bool := c ≠ ')'

/-- Replacement of `reverse_header_links`:
`[[#{header.replace("-"," ").title()}|{linktext}]]`. -/
def repl2 (g1 g2 : List Char) : List Char :=
  '[' :: '[' :: '#' :: pyTitle (g2.map hyphToSpace) ++ '|' :: g1 ++ [']', ']']

/-- Match `\[([^\]]+)\]\(#([^)]+)\)` at the head of the input. -/
def tryMatch2 : List Char → Option (List Char × List Char)
  | '[' :: rest =>
    match spanP notRBracket rest with
    | (g1, ']' :: '(' :: '#' :: r2) =>
      if g1 = [] then none
      else
        match spanP notRParen r2 with
        | (g2, ')' :: rem) =>
          if g2 = [] then none else some (repl2 g1 g2, rem)
        | _ => none
    | _ => none
  | _ => none

def sub2 : Nat → List Char → List Char
  | 0, l => l
  | _ + 1, [] => []
  | n + 1, c :: rest =>
    match tryMatch2 (c :: rest) with
    | some (repl, rem) => repl ++ sub2 n rem
    | none => c :: sub2 n rest

/-- Pass 2 of `apply_reverse_conversions`: header-link reversal. -/
def reverse_header_links (s : String) : String :=
  ⟨sub2 s.toList.length s.toList⟩

/-! ## Pass 3: image embeds
`re.sub(r'([^!]?)(\[\[[^\]]+\.(png|jpg|jpeg|gif|svg|webp|bmp)[^\]]*\]\])',
reverse_image_links, text, flags=re.IGNORECASE)`
(source lines 97-116 and 131-134). -/

/-- The fixed extension whitelist of `reverse_image_links`. -/
def extList : List (List Char) :=
  ["png".toList, "jpg".toList, "jpeg".toList, "gif".toList,
   "svg".toList, "webp".toList, "bmp".toList]

/-- Case-insensitive: some whitelisted extension is a front segment of `l`. -/
def extPrefAt (l : List Char) : Bool :=
  extList.any (fun e => isPrefL e (l.map Char.toLower))

/-- Scan for `\.(png|...)` with at least one char of the body before the
dot: the regex piece `[^\]]+\.(ext)` matches iff some dot at index ≥ 1 of
the body is followed (case-insensitively) by a whitelisted extension. -/
def hasDotExtAux : List Char → Bool
  | [] => false
  | c :: r => (c = '.' && extPrefAt r) || hasDotExtAux r

def hasDotExt : List Char → Bool
  | [] => false
  | _ :: r => hasDotExtAux r

/-- The callback's test: `filename.lower().endswith(ext)` for some
whitelisted `ext` (with its dot). -/
def endsWithImageExt (body : List Char) : Bool :=
  extList.any (fun e => isSufL ('.' :: e) (body.map Char.toLower))

/-- Match group 2 of pass 3 at the head of the input: `[[`, a nonempty run
of non-`]` chars containing a whitelisted dot-extension at index ≥ 1, then
`]]`.  Returns the bracket body and the rest. -/
def matchCore3 : List Char → Option (List Char × List Char)
  | '[' :: '[' :: rest =>
    match spanP notRBracket rest with
    | (body, ']' :: ']' :: rem) =>
      if hasDotExt body then some (body, rem) else none
    | _ => none
  | _ => none

/-- Reconstruct group 2 (`[[body]]`) from its body. -/
def content3 (body : List Char) : List Char :=
  '[' :: '[' :: body ++ [']', ']']

/-- One match attempt of pass 3, with the same greedy `([^!]?)` group
behaviour as pass 1, and the `reverse_image_links` callback applied: if
the bracket body ends with a whitelisted image extension the content is
prefixed with `!`, otherwise the whole match is emitted unchanged. -/
def tryMatch3 : List Char → Option (List Char × List Char)
  | [] => none
  | c :: rest =>
    if c ≠ '!' then
      match matchCore3 rest with
      | some (body, rem) =>
        if endsWithImageExt body then some (c :: '!' :: content3 body, rem)
        else some (c :: content3 body, rem)
      | none =>
        match matchCore3 (c :: rest) with
        | some (body, rem) =>
          if endsWithImageExt body then some ('!' :: content3 body, rem)
          else some (content3 body, rem)
        | none => none
    else none

def sub3 : Nat → List Char → List Char
  | 0, l => l
  | _ + 1, [] => []
  | n + 1, c :: rest =>
    match tryMatch3 (c :: rest) with
    | some (repl, rem) => repl ++ sub3 n rem
    | none => c :: sub3 n rest

/-- Pass 3 of `apply_reverse_conversions`: image-embed reversal. -/
def reverse_image_links (s : String) : String :=
  ⟨sub3 s.toList.length s.toList⟩

/-- The full text conversion of `apply_reverse_conversions`
(source lines 118-140): the three passes in their fixed order. -/
def convert_text (s : String) : String :=
  reverse_image_links (reverse_header_links (reverse_page_links s))

/-- `apply_reverse_conversions` as observed by the orchestrator:
the new text and whether the text changed. -/
def apply_reverse_conversions (s : String) : String × Bool :=
  (convert_text s, convert_text s ≠ s)

/-- Modelled from the spec: the forward (vault-to-wiki) page-link
conversion, which is not in the repository sources; spec section 1 treats
it as out of scope and states it "is structurally the mirror of the
reverse direction specified here".  It is the mirror of pass 1:
`[[target|display]]` becomes `[[display|target]]` with the target's spaces
turned into hyphens. -/
def forward_repl (g2 g3 : List Char) : List Char :=
  '[' :: '[' :: g3 ++ '|' :: (g2.map spaceToHyph) ++ [']', ']']

/-- Modelled from the spec: one match attempt of the forward page-link
pass, with the same match shape as the reverse pass (mirrored rewrite). -/
def forwardTryMatch : List Char → Option (List Char × List Char)
  | [] => none
  | c :: rest =>
    if c ≠ '!' then
      match matchCore1 rest with
      | some (g2, g3, rem) => some (c :: forward_repl g2 g3, rem)
      | none =>
        match matchCore1 (c :: rest) with
        | some (g2, g3, rem) => some (forward_repl g2 g3, rem)
        | none => none
    else none

/-- Modelled from the spec: scan of the forward page-link pass. -/
def forwardSub : Nat → List Char → List Char
  | 0, l => l
  | _ + 1, [] => []
  | n + 1, c :: rest =>
    match forwardTryMatch (c :: rest) with
    | some (repl, rem) => repl ++ forwardSub n rem
    | none => c :: forwardSub n rest

/-- Modelled from the spec: the forward (vault-to-wiki) page-link pass. -/
def forward_page_links (s : String) : String :=
  ⟨forwardSub s.toList.length s.toList⟩

/-- A character of a plain page-link field: not one of the structural
characters the three patterns key on (`[`, `]`, `|`, `(`) and not a dot
(so the field cannot look like an image extension).  Spaces, hyphens and
ordinary text chars are plain. -/
def plainLinkChar (c : Char) : Bool :=
  c ≠ '[' && c ≠ ']' && c ≠ '|' && c ≠ '(' && c ≠ '.'

/-! ## The sync orchestrator (`sync_from_wiki`, source lines 142-241)

The version-control collaborator is abstracted into:
  - `Repo`: the parts of the repository the pass reads but never writes
    (presence of `.git`, the set of listed branch names, the fetched
    `origin/master` head).  Keeping them in a separate read-only record
    makes "the remote did not move between invocations" explicit in
    theorems that chain two passes.
  - `Mut`: the parts the pass can write: the checked-out branch, the local
    `master` head, the `.obsidian_sync_state.json` file, the number of
    commits created on the vault branch, and a trace of the branch
    checkouts performed.
  - `Env`: oracle outputs of the collaborator (diff listing, find listing,
    file-existence, file contents, timestamp) plus at most one call site
    whose subprocess invocation fails (`failAt`); a timeout behaves as a
    failure (spec section 5), so a single failing-site model covers both.
-/

/-- The persisted `.obsidian_sync_state.json` record. -/
structure SyncStateRec where
  last_master_hash : Option String
  last_sync_time : Option String
deriving DecidableEq

/-- `load_sync_state` (source lines 35-41): the parsed file if it exists,
else the default record with null fields. -/
def load_sync_state : Option SyncStateRec → SyncStateRec
  | some s => s
  | none => ⟨none, none⟩

/-- Read-only repository facts. -/
structure Repo where
  gitDirExists : Bool
  branches : List String
  remoteMaster : String
deriving DecidableEq

/-- Mutable repository state. -/
structure Mut where
  currentBranch : String
  localMaster : String
  syncFile : Option SyncStateRec
  vaultCommits : Nat
  checkoutTrace : List String
deriving DecidableEq

/-- The subprocess call sites of a pass, in source order.  `checkoutFile`
is the per-file `git checkout master -- <path>` of the conversion loop. -/
inductive CallSite where
  | branchList
  | driftRevLocal
  | driftFetch
  | driftRevRemote
  | getOriginal
  | checkoutMaster1
  | pull
  | diffFiles
  | findFiles
  | revSaveNoOutput
  | revSaveNoMd
  | checkoutObsidian
  | checkoutFile (p : String)
  | addAll
  | commitOp
  | checkoutMaster2
  | revSaveFinal
deriving DecidableEq

/-- Collaborator oracle. -/
structure Env where
  failAt : Option CallSite
  diffOutput : String → String
  findOutput : String
  isFile : String → Bool
  fileContent : String → String
  timestamp : String
  restoreFails : Bool

/-- `has_external_changes` (source lines 52-70), as a pure function of the
observed hashes and the loaded sync record. -/
def has_external_changes (repo : Repo) (m : Mut) : Bool :=
  let sync := load_sync_state m.syncFile
  if m.localMaster ≠ repo.remoteMaster then true
  else if sync.last_master_hash = none then true
  else if sync.last_master_hash ≠ some m.localMaster then true
  else false

/-- The branch names required at source line 152. -/
def requiredBranches : List String := ["obsidian", "ob_to_gh", "master"]

/-- Join with newlines, as the lines of a `git branch -a` listing. -/
def joinNL : List String → String
  | [] => ""
  | [s] => s
  | s :: r => s ++ "\n" ++ joinNL r

/-- The `git branch -a` output the pass observes: one indented line per
listed branch name.  (The `* ` marker of the current branch cannot affect
a substring test for the required names, so it is not modelled.) -/
def branchListing (branches : List String) : String :=
  joinNL (branches.map (fun b => "  " ++ b))

/-- The check of source lines 151-156: Python `branch not in branches` is
a substring test on the raw listing, not a membership test. -/
def missingBranch (repo : Repo) : Bool :=
  requiredBranches.any (fun b => !(strIn b (branchListing repo.branches)))

/-- `save_sync_state` (source lines 43-50): overwrite the state file with
the given hash and the current timestamp. -/
def save_sync_state (env : Env) (h : String) (m : Mut) : Mut :=
  { m with syncFile := some ⟨some h, some env.timestamp⟩ }

/-- A successful `git checkout <branch>`. -/
def doCheckout (b : String) (m : Mut) : Mut :=
  { m with currentBranch := b, checkoutTrace := m.checkoutTrace ++ [b] }

/-- `Path(f).suffix == ".md"` for the paths git and find emit: the final
path component ends in `.md` and the dot is not its first char. -/
def suffixIsMd (f : List Char) : Bool :=
  let name := (splitOnChar '/' f).getLastD []
  isSufL ".md".toList name && decide (4 ≤ name.length)

/-- The changed-file listing text the pass works from (source lines
174-187), already stripped as in the source. -/
def changedOutput (env : Env) (syncFile : Option SyncStateRec) : String :=
  match (load_sync_state syncFile).last_master_hash with
  | some h => ⟨trimL (env.diffOutput h).toList⟩
  | none => ⟨trimL env.findOutput.toList⟩

/-- Source lines 194-195: split the listing on newlines, keep non-blank
lines, keep existing `.md` files. -/
def mdFilesOf (env : Env) (out : String) : List String :=
  (((splitOnChar '\n' out.toList).map (fun l => String.mk l)).filter
      (fun f => trimL f.toList ≠ [])).filter
    (fun f => suffixIsMd f.toList && env.isFile f)

/-- Did `apply_reverse_conversions` change this file (source line 215)? -/
def convertedChanged (env : Env) (f : String) : Bool :=
  (apply_reverse_conversions (env.fileContent f)).2

/-- The conversion loop (source lines 208-216): for each file, a per-file
`git checkout master -- <file>` that may fail, then the converter; returns
the files the converter changed, or the first failing path. -/
def process_files (env : Env) : List String → Except String (List String)
  | [] => .ok []
  | f :: rest =>
    if env.failAt = some (.checkoutFile f) then .error f
    else
      match process_files env rest with
      | .error e => .error e
      | .ok conv => .ok (if convertedChanged env f then f :: conv else conv)

/-- How the try block of `sync_from_wiki` ended. -/
inductive TryExit where
  | noOutput
  | noMd
  | full (n : Nat)
deriving DecidableEq

/-- Source lines 230-232: switch back to master and persist the sync
state with the current local master hash (the checkout does not change
`localMaster`, so the saved hash is `m.localMaster`). -/
def finishSave (env : Env) (m : Mut) (n : Nat) :
    Except CallSite TryExit × Mut :=
  if env.failAt = some .checkoutMaster2 then (.error .checkoutMaster2, m)
  else if env.failAt = some .revSaveFinal then
    (.error .revSaveFinal, doCheckout "master" m)
  else (.ok (.full n), save_sync_state env m.localMaster (doCheckout "master" m))

/-- Source lines 218-228: stage and commit iff some file was converted,
then finish. -/
def commitAndFinish (env : Env) (m : Mut) (conv : List String) :
    Except CallSite TryExit × Mut :=
  if conv = [] then finishSave env m conv.length
  else if env.failAt = some .addAll then (.error .addAll, m)
  else if env.failAt = some .commitOp then (.error .commitOp, m)
  else finishSave env { m with vaultCommits := m.vaultCommits + 1 } conv.length

/-- Source lines 189-232, from the changed-file listing on: the two early
returns (each persisting the state), or the vault-branch checkout, the
conversion loop, and committing. -/
def afterFiles (env : Env) (m : Mut) (out : String) :
    Except CallSite TryExit × Mut :=
  if out = "" then
    if env.failAt = some .revSaveNoOutput then (.error .revSaveNoOutput, m)
    else (.ok .noOutput, save_sync_state env m.localMaster m)
  else if mdFilesOf env out = [] then
    if env.failAt = some .revSaveNoMd then (.error .revSaveNoMd, m)
    else (.ok .noMd, save_sync_state env m.localMaster m)
  else if env.failAt = some .checkoutObsidian then
    (.error .checkoutObsidian, m)
  else
    match process_files env (mdFilesOf env out) with
    | .error f => (.error (.checkoutFile f), doCheckout "obsidian" m)
    | .ok conv => commitAndFinish env (doCheckout "obsidian" m) conv

/-- The state after `git checkout master; git pull origin master`: the
checked-out branch is master and the local master head is the fetched
remote head. -/
def pulled (repo : Repo) (m : Mut) : Mut :=
  { doCheckout "master" m with localMaster := repo.remoteMaster }

/-- The try block of `sync_from_wiki` (source lines 168-232): checkout
master, pull (local master becomes the fetched remote head), compute the
changed-file listing, and continue in `afterFiles`. -/
def tryBody (env : Env) (repo : Repo) (m0 : Mut) :
    Except CallSite TryExit × Mut :=
  if env.failAt = some .checkoutMaster1 then (.error .checkoutMaster1, m0)
  else if env.failAt = some .pull then (.error .pull, doCheckout "master" m0)
  else
    match (load_sync_state m0.syncFile).last_master_hash with
    | some h =>
      if env.failAt = some .diffFiles then (.error .diffFiles, pulled repo m0)
      else afterFiles env (pulled repo m0) ⟨trimL (env.diffOutput h).toList⟩
    | none =>
      if env.failAt = some .findFiles then (.error .findFiles, pulled repo m0)
      else afterFiles env (pulled repo m0) ⟨trimL env.findOutput.toList⟩

/-- The outcome of one invocation.  Exit status: `preconditionExit`,
`uncaughtError` and `gitFailure` terminate the process with a nonzero
status; the others return normally (status 0). -/
inductive RunResult where
  | preconditionExit
  | uncaughtError (s : CallSite)
  | noDrift
  | syncedNoOutput
  | syncedNoMd
  | synced (n : Nat)
  | gitFailure (s : CallSite)
deriving DecidableEq

def exitCode : RunResult → Nat
  | .noDrift => 0
  | .syncedNoOutput => 0
  | .syncedNoMd => 0
  | .synced _ => 0
  | _ => 1

def isSuccessR : RunResult → Bool
  | .noDrift => true
  | .syncedNoOutput => true
  | .syncedNoMd => true
  | .synced _ => true
  | _ => false

def resultOfExit : TryExit → RunResult
  | .noOutput => .syncedNoOutput
  | .noMd => .syncedNoMd
  | .full n => .synced n

/-- The finally block (source lines 237-241): if the pass is not on the
branch it started from, a best-effort `git checkout <original>` whose
failure is swallowed (`check=False`). -/
def finallyRestore (env : Env) (original : String) (m : Mut) : Mut :=
  if m.currentBranch ≠ original then
    if env.restoreFails then m else doCheckout original m
  else m

/-- `sync_from_wiki` (source lines 142-241): precondition checks, drift
check, then the try block with its except handler (exit 1) and finally
restoration.  Call sites outside the try block (`git branch -a`, the
rev-parses and fetch of the drift check, reading the original branch)
raise uncaught on failure. -/
def sync_from_wiki (env : Env) (repo : Repo) (m : Mut) : RunResult × Mut :=
  if repo.gitDirExists = false then (.preconditionExit, m)
  else if env.failAt = some .branchList then (.uncaughtError .branchList, m)
  else if missingBranch repo then (.preconditionExit, m)
  else if env.failAt = some .driftRevLocal then
    (.uncaughtError .driftRevLocal, m)
  else if env.failAt = some .driftFetch then (.uncaughtError .driftFetch, m)
  else if env.failAt = some .driftRevRemote then
    (.uncaughtError .driftRevRemote, m)
  else if has_external_changes repo m = false then (.noDrift, m)
  else if env.failAt = some .getOriginal then (.uncaughtError .getOriginal, m)
  else
    match tryBody env repo m with
    | (.error s, m') => (.gitFailure s, finallyRestore env m.currentBranch m')
    | (.ok te, m') => (resultOfExit te, finallyRestore env m.currentBranch m')

/-- The call sites of the Syncing and Committing phases (spec section 4.2):
everything from the first checkout up to and including the commit. -/
def syncingOrCommitting : CallSite → Bool
  | .checkoutMaster1 => true
  | .pull => true
  | .diffFiles => true
  | .findFiles => true
  | .revSaveNoOutput => true
  | .revSaveNoMd => true
  | .checkoutObsidian => true
  | .checkoutFile _ => true
  | .addAll => true
  | .commitOp => true
  | _ => false

/-! ## Theorems -/

/-- Claim C3: the page-link pass is claimed to leave every `[[...]]`
immediately preceded by `!` untouched, even one containing a `|`.  The
code does not: on `![[a|b]]` the optional group `([^!]?)` backtracks to
the empty match one char after the `!`, so the pass rewrites the embed to
`![[b|a]]`.  This theorem evaluates the embedded pass at the failing
input. -/
theorem c3_page_pass_rewrites_bang_embed :
    reverse_page_links "![[a|b]]" = "![[b|a]]" ∧
      reverse_page_links "![[a|b]]" ≠ "![[a|b]]" := by
  constructor <;> decide

/-- Claim C4: the image-embed pass is claimed to leave an occurrence
already preceded by `!` unmodified.  The code does not: on `![[img.png]]`
the match restarts one char after the `!` with an empty prefix group and
prepends another `!`, yielding `!![[img.png]]`.  This theorem evaluates
the embedded pass at the failing input (and also checks the two positive
examples of the claim, which the code does satisfy). -/
theorem c4_image_pass_doubles_bang :
    reverse_image_links "![[img.png]]" = "!![[img.png]]" ∧
      reverse_image_links "[[diagram.png]]" = "![[diagram.png]]" ∧
      reverse_image_links "[[Other Page]]" = "[[Other Page]]" ∧
      reverse_image_links "[[notes.txt]]" = "[[notes.txt]]" := by
  refine ⟨by decide, by decide, by decide, by decide⟩

/-- Greedy span of a segment all of whose chars satisfy `p`, stopped by a
char that does not: the unique split the regex's greedy class produces. -/
theorem spanP_eq (p : Char → Bool) (xs : List Char) (y : Char)
    (ys : List Char) (hxs : ∀ c ∈ xs, p c = true) (hy : p y = false) :
    spanP p (xs ++ y :: ys) = (xs, y :: ys) := by
  induction xs with
  | nil => simp [spanP, hy]
  | cons a as ih =>
    have ha : p a = true := hxs a (by simp)
    have ih' := ih (fun c hc => hxs c (by simp [hc]))
    simp [spanP, ha, ih']

theorem sub2_nil (n : Nat) : sub2 n [] = [] := by
  cases n <;> rfl

/-- Claim C9: the header-link pass rewrites an anchor link
`[display](#fragment)` (display nonempty without `]`, fragment nonempty
without `)` — the shapes the pattern `\[([^\]]+)\]\(#([^)]+)\)` matches)
to `[[#H|display]]`, where `H` is the fragment with hyphens turned into
spaces and then title-cased (first letter of each word capitalized, as
Python `str.title()` does). -/
theorem c9_header_link_pass (d h : List Char) (hd : d ≠ [])
    (hdc : ']' ∉ d) (hh : h ≠ []) (hhc : ')' ∉ h) :
    reverse_header_links ⟨'[' :: (d ++ (']' :: '(' :: '#' :: (h ++ [')'])))⟩ =
      ⟨'[' :: '[' :: '#' :: (pyTitle (h.map hyphToSpace) ++
        ('|' :: (d ++ [']', ']'])))⟩ := by
  have hspan1 : spanP notRBracket (d ++ (']' :: '(' :: '#' :: (h ++ [')'])))
      = (d, ']' :: '(' :: '#' :: (h ++ [')'])) := by
    refine spanP_eq notRBracket d ']' ('(' :: '#' :: (h ++ [')']))
      (fun c hc => ?_) (by decide)
    have : c ≠ ']' := fun e => hdc (e ▸ hc)
    simp [notRBracket, this]
  have hspan2 : spanP notRParen (h ++ [')']) = (h, [')']) := by
    refine spanP_eq notRParen h ')' [] (fun c hc => ?_) (by decide)
    have : c ≠ ')' := fun e => hhc (e ▸ hc)
    simp [notRParen, this]
  have htry : tryMatch2 ('[' :: (d ++ (']' :: '(' :: '#' :: (h ++ [')']))))
      = some (repl2 d h, []) := by
    simp [tryMatch2, hspan1, hspan2, hd, hh]
  show String.mk
      (sub2 (('[' :: (d ++ (']' :: '(' :: '#' :: (h ++ [')'])))).length)
        ('[' :: (d ++ (']' :: '(' :: '#' :: (h ++ [')']))))) = _
  rw [List.length_cons]
  rw [show sub2 ((d ++ (']' :: '(' :: '#' :: (h ++ [')']))).length + 1)
        ('[' :: (d ++ (']' :: '(' :: '#' :: (h ++ [')']))))
      = match tryMatch2 ('[' :: (d ++ (']' :: '(' :: '#' :: (h ++ [')'])))) with
        | some (repl, rem) =>
          repl ++ sub2 ((d ++ (']' :: '(' :: '#' :: (h ++ [')']))).length) rem
        | none =>
          '[' :: sub2 ((d ++ (']' :: '(' :: '#' :: (h ++ [')']))).length)
            (d ++ (']' :: '(' :: '#' :: (h ++ [')']))) from rfl]
  rw [htry]
  simp [sub2_nil, repl2]

/-- Claim C9, witness: the claim's own example, obtained from
`c9_header_link_pass` at `display = "see setup"`,
`fragment = "installation-steps"`. -/
theorem c9_header_link_pass_witness :
    ("see setup".toList ≠ [] ∧ ']' ∉ "see setup".toList ∧
      "installation-steps".toList ≠ [] ∧ ')' ∉ "installation-steps".toList) ∧
      reverse_header_links "[see setup](#installation-steps)" =
        "[[#Installation Steps|see setup]]" := by
  refine ⟨⟨by decide, by decide, by decide, by decide⟩, ?_⟩
  have h := c9_header_link_pass "see setup".toList "installation-steps".toList
    (by decide) (by decide) (by decide) (by decide)
  have e1 : "[see setup](#installation-steps)" =
      (⟨'[' :: ("see setup".toList ++
        (']' :: '(' :: '#' :: ("installation-steps".toList ++ [')'])))⟩ :
        String) := by decide
  have e2 : "[[#Installation Steps|see setup]]" =
      (⟨'[' :: '[' :: '#' ::
        (pyTitle ("installation-steps".toList.map hyphToSpace) ++
          ('|' :: ("see setup".toList ++ [']', ']'])))⟩ : String) := by decide
  rw [e1, e2]
  exact h

/-! ### Claim C5: the page-link round trip

Lemmas establishing that on a single plain page link the forward pass and
reverse pass 1 act as the two argument-swapping rewrites, and that reverse
passes 2 and 3 cannot match a string containing no `(` and no `.`. -/

theorem spanP_fst_mem (p : Char → Bool) (l : List Char) :
    ∀ x ∈ (spanP p l).1, x ∈ l := by
  induction l with
  | nil => simp [spanP]
  | cons c r ih =>
    intro x hx
    by_cases hp : p c
    · simp only [spanP, hp, if_true] at hx
      rcases List.mem_cons.mp hx with hx | hx
      · simp [hx]
      · exact List.mem_cons_of_mem c (ih x hx)
    · simp [spanP, hp] at hx

theorem spanP_snd_mem (p : Char → Bool) (l : List Char) :
    ∀ x ∈ (spanP p l).2, x ∈ l := by
  induction l with
  | nil => simp [spanP]
  | cons c r ih =>
    intro x hx
    by_cases hp : p c
    · simp only [spanP, hp, if_true] at hx
      exact List.mem_cons_of_mem c (ih x hx)
    · simp only [spanP, hp, if_false] at hx
      exact hx

theorem sub1_nil (n : Nat) : sub1 n [] = [] := by
  cases n <;> rfl

theorem sub3_nil (n : Nat) : sub3 n [] = [] := by
  cases n <;> rfl

theorem forwardSub_nil (n : Nat) : forwardSub n [] = [] := by
  cases n <;> rfl

theorem hasDotExtAux_dot (l : List Char) (h : hasDotExtAux l = true) :
    '.' ∈ l := by
  induction l with
  | nil => simp [hasDotExtAux] at h
  | cons c r ih =>
    rw [show hasDotExtAux (c :: r)
        = ((c = '.' && extPrefAt r) || hasDotExtAux r) from rfl] at h
    rcases Bool.or_eq_true_iff.mp h with h1 | h1
    · have hc : c = '.' := by
        have := (Bool.and_eq_true _ _).mp h1
        exact of_decide_eq_true this.1
      simp [hc]
    · exact List.mem_cons_of_mem c (ih h1)

theorem hasDotExt_dot (l : List Char) (h : hasDotExt l = true) : '.' ∈ l := by
  cases l with
  | nil => simp [hasDotExt] at h
  | cons c r =>
    rw [show hasDotExt (c :: r) = hasDotExtAux r from rfl] at h
    exact List.mem_cons_of_mem c (hasDotExtAux_dot r h)

theorem matchCore3_dot (l body rem : List Char)
    (h : matchCore3 l = some (body, rem)) : '.' ∈ l := by
  unfold matchCore3 at h
  split at h
  · rename_i rest
    split at h
    · rename_i body2 rem2 heq
      split_ifs at h with hdot
      · have h1 : '.' ∈ body2 := hasDotExt_dot body2 hdot
        have hb : body2 = (spanP notRBracket rest).1 := by rw [heq]
        rw [hb] at h1
        have h2 : '.' ∈ rest := spanP_fst_mem notRBracket rest '.' h1
        simp [h2]
    · simp at h
  · simp at h

theorem tryMatch3_dot (l : List Char) (p : List Char × List Char)
    (h : tryMatch3 l = some p) : '.' ∈ l := by
  unfold tryMatch3 at h
  split at h
  · simp at h
  · rename_i c rest
    split_ifs at h with hc
    · split at h
      · rename_i body rem heq
        exact List.mem_cons_of_mem c (matchCore3_dot rest body rem heq)
      · split at h
        · rename_i body rem heq
          exact matchCore3_dot (c :: rest) body rem heq
        · simp at h

theorem sub3_id (n : Nat) (l : List Char) (h : '.' ∉ l) : sub3 n l = l := by
  induction n generalizing l with
  | zero => rfl
  | succ n ih =>
    cases l with
    | nil => rfl
    | cons c rest =>
      have hnone : tryMatch3 (c :: rest) = none := by
        cases hh : tryMatch3 (c :: rest)
        · rfl
        · exact absurd (tryMatch3_dot (c :: rest) _ hh) h
      rw [show sub3 (n + 1) (c :: rest)
          = match tryMatch3 (c :: rest) with
            | some (repl, rem) => repl ++ sub3 n rem
            | none => c :: sub3 n rest from rfl]
      rw [hnone]
      exact congrArg (c :: ·) (ih rest (fun hm => h (List.mem_cons_of_mem c hm)))

theorem tryMatch2_paren (l : List Char) (p : List Char × List Char)
    (h : tryMatch2 l = some p) : '(' ∈ l := by
  unfold tryMatch2 at h
  split at h
  · rename_i rest
    split at h
    · rename_i g1 r2 heq
      have hb : (']' :: '(' :: '#' :: r2 : List Char)
          = (spanP notRBracket rest).2 := by rw [heq]
      have hm : '(' ∈ (']' :: '(' :: '#' :: r2 : List Char) := by simp
      rw [hb] at hm
      exact List.mem_cons_of_mem '[' (spanP_snd_mem notRBracket rest '(' hm)
    · simp at h
  · simp at h

theorem sub2_id (n : Nat) (l : List Char) (h : '(' ∉ l) : sub2 n l = l := by
  induction n generalizing l with
  | zero => rfl
  | succ n ih =>
    cases l with
    | nil => rfl
    | cons c rest =>
      have hnone : tryMatch2 (c :: rest) = none := by
        cases hh : tryMatch2 (c :: rest)
        · rfl
        · exact absurd (tryMatch2_paren (c :: rest) _ hh) h
      rw [show sub2 (n + 1) (c :: rest)
          = match tryMatch2 (c :: rest) with
            | some (repl, rem) => repl ++ sub2 n rem
            | none => c :: sub2 n rest from rfl]
      rw [hnone]
      exact congrArg (c :: ·) (ih rest (fun hm => h (List.mem_cons_of_mem c hm)))

/-- Pass 2 cannot touch a string containing no `(`. -/
theorem reverse_header_links_id (s : String) (h : '(' ∉ s.toList) :
    reverse_header_links s = s := by
  obtain ⟨ld⟩ := s
  exact congrArg String.mk (sub2_id ld.length ld h)

/-- Pass 3 cannot touch a string containing no `.`. -/
theorem reverse_image_links_id (s : String) (h : '.' ∉ s.toList) :
    reverse_image_links s = s := by
  obtain ⟨ld⟩ := s
  exact congrArg String.mk (sub3_id ld.length ld h)

theorem matchCore1_none_cons (c : Char) (l : List Char) (hc : c ≠ '[') :
    matchCore1 ('[' :: c :: l) = none := by
  unfold matchCore1
  split
  · rename_i rest heq
    injection heq with h1 h2
    injection h2 with h3 h4
    exact absurd h3 hc
  · rfl

/-- The page-link core pattern on a single full link `[[x|y]]`. -/
theorem matchCore1_pair (x y : List Char) (hx : x ≠ []) (hy : y ≠ [])
    (hxs : ∀ c ∈ x, pageStop c = true) (hys : ∀ c ∈ y, pageStop c = true) :
    matchCore1 ('[' :: '[' :: (x ++ '|' :: (y ++ [']', ']'])))
      = some (x, y, []) := by
  have hs1 : spanP pageStop (x ++ '|' :: (y ++ [']', ']']))
      = (x, '|' :: (y ++ [']', ']'])) :=
    spanP_eq pageStop x '|' (y ++ [']', ']']) hxs (by decide)
  have hs2 : spanP pageStop (y ++ [']', ']']) = (y, [']', ']']) :=
    spanP_eq pageStop y ']' [']'] hys (by decide)
  simp [matchCore1, hs1, hs2, hx, hy]

/-- Pass 1 of the reverse converter on a single full link `[[x|y]]`:
the greedy one-char prefix group cannot consume the leading `[` (the core
then fails one position later), so the empty-prefix alternative matches
the whole link. -/
theorem tryMatch1_link (x y : List Char) (x0 : Char) (xt : List Char)
    (hx : x = x0 :: xt) (hx0 : x0 ≠ '[') (hy : y ≠ [])
    (hxs : ∀ c ∈ x, pageStop c = true) (hys : ∀ c ∈ y, pageStop c = true) :
    tryMatch1 ('[' :: '[' :: (x ++ '|' :: (y ++ [']', ']'])))
      = some (repl1 x y, []) := by
  have hmc : matchCore1 ('[' :: '[' :: (x ++ '|' :: (y ++ [']', ']'])))
      = some (x, y, []) :=
    matchCore1_pair x y (by rw [hx]; simp) hy hxs hys
  have hnone : matchCore1 ('[' :: (x ++ '|' :: (y ++ [']', ']']))) = none := by
    rw [hx, List.cons_append]
    exact matchCore1_none_cons x0 _ hx0
  rw [show tryMatch1 ('[' :: '[' :: (x ++ '|' :: (y ++ [']', ']'])))
      = if ('[' : Char) ≠ '!' then
          match matchCore1 ('[' :: (x ++ '|' :: (y ++ [']', ']']))) with
          | some (g2, g3, rem) => some ('[' :: repl1 g2 g3, rem)
          | none =>
            match matchCore1 ('[' :: '[' :: (x ++ '|' :: (y ++ [']', ']']))) with
            | some (g2, g3, rem) => some (repl1 g2 g3, rem)
            | none => none
        else none from rfl]
  rw [if_pos (show ('[' : Char) ≠ '!' by decide), hnone, hmc]

/-- The forward page-link pass on a single full link, mirror image of
`tryMatch1_link`. -/
theorem forwardTryMatch_link (x y : List Char) (x0 : Char) (xt : List Char)
    (hx : x = x0 :: xt) (hx0 : x0 ≠ '[') (hy : y ≠ [])
    (hxs : ∀ c ∈ x, pageStop c = true) (hys : ∀ c ∈ y, pageStop c = true) :
    forwardTryMatch ('[' :: '[' :: (x ++ '|' :: (y ++ [']', ']'])))
      = some (forward_repl x y, []) := by
  have hmc : matchCore1 ('[' :: '[' :: (x ++ '|' :: (y ++ [']', ']'])))
      = some (x, y, []) :=
    matchCore1_pair x y (by rw [hx]; simp) hy hxs hys
  have hnone : matchCore1 ('[' :: (x ++ '|' :: (y ++ [']', ']']))) = none := by
    rw [hx, List.cons_append]
    exact matchCore1_none_cons x0 _ hx0
  rw [show forwardTryMatch ('[' :: '[' :: (x ++ '|' :: (y ++ [']', ']'])))
      = if ('[' : Char) ≠ '!' then
          match matchCore1 ('[' :: (x ++ '|' :: (y ++ [']', ']']))) with
          | some (g2, g3, rem) => some ('[' :: forward_repl g2 g3, rem)
          | none =>
            match matchCore1 ('[' :: '[' :: (x ++ '|' :: (y ++ [']', ']']))) with
            | some (g2, g3, rem) => some (forward_repl g2 g3, rem)
            | none => none
        else none from rfl]
  rw [if_pos (show ('[' : Char) ≠ '!' by decide), hnone, hmc]

theorem sub1_full (c : Char) (rest repl : List Char)
    (h : tryMatch1 (c :: rest) = some (repl, [])) :
    sub1 (c :: rest).length (c :: rest) = repl := by
  rw [List.length_cons]
  rw [show sub1 (rest.length + 1) (c :: rest)
      = match tryMatch1 (c :: rest) with
        | some (repl, rem) => repl ++ sub1 rest.length rem
        | none => c :: sub1 rest.length rest from rfl]
  rw [h]
  simp [sub1_nil]

theorem forwardSub_full (c : Char) (rest repl : List Char)
    (h : forwardTryMatch (c :: rest) = some (repl, [])) :
    forwardSub (c :: rest).length (c :: rest) = repl := by
  rw [List.length_cons]
  rw [show forwardSub (rest.length + 1) (c :: rest)
      = match forwardTryMatch (c :: rest) with
        | some (repl, rem) => repl ++ forwardSub rest.length rem
        | none => c :: forwardSub rest.length rest from rfl]
  rw [h]
  simp [forwardSub_nil]

/-- The space-hyphen-space cancellation: a hyphen-free target survives the
forward space-to-hyphen and reverse hyphen-to-space replacements. -/
theorem hyph_space_cancel (t : List Char) (h : '-' ∉ t) :
    (t.map spaceToHyph).map hyphToSpace = t := by
  induction t with
  | nil => rfl
  | cons c r ih =>
    have hc : c ≠ '-' := fun e => h (by simp [e])
    have hr : '-' ∉ r := fun hm => h (List.mem_cons_of_mem c hm)
    have hcc : hyphToSpace (spaceToHyph c) = c := by
      by_cases hsp : c = ' '
      · subst hsp
        decide
      · simp [spaceToHyph, hyphToSpace, hsp, hc]
    simp [hcc, ih hr]

/-- A structural character `x` does not occur in a plain link `[[t|d]]`. -/
theorem not_mem_link (x : Char) (t d : List Char)
    (htc : ∀ c ∈ t, plainLinkChar c = true)
    (hdc : ∀ c ∈ d, plainLinkChar c = true)
    (hx : plainLinkChar x = false) (hx1 : x ≠ '[') (hx2 : x ≠ '|')
    (hx3 : x ≠ ']') :
    x ∉ '[' :: '[' :: (t ++ '|' :: (d ++ [']', ']'])) := by
  intro hmem
  rcases List.mem_cons.mp hmem with h1 | hmem1
  · exact absurd h1 hx1
  rcases List.mem_cons.mp hmem1 with h1 | hmem2
  · exact absurd h1 hx1
  rcases List.mem_append.mp hmem2 with h1 | hmem3
  · rw [htc x h1] at hx
    exact Bool.true_eq_false.mp hx
  rcases List.mem_cons.mp hmem3 with h1 | hmem4
  · exact absurd h1 hx2
  rcases List.mem_append.mp hmem4 with h1 | hmem5
  · rw [hdc x h1] at hx
    exact Bool.true_eq_false.mp hx
  · rcases List.mem_cons.mp hmem5 with h1 | hmem6
    · exact absurd h1 hx3
    rcases List.mem_cons.mp hmem6 with h1 | hmem7
    · exact absurd h1 hx3
    · simp at hmem7

/-- Claim C5, counterexample: the claim fails twice on the code.  First,
the forward-then-reverse cycle on the vault-dialect link
`[[Target Page|Display]]` reproduces the original `[[Target Page|Display]]`
(as a lossless round trip must), not `[[Display|Target Page]]` as the
claim states.  Second, the general clause "every recognized LinkReference
round-trips losslessly (except header casing)" fails for a page link
whose target contains a literal hyphen: `[[A-B|C]]` comes back as
`[[A B|C]]`, because the reverse pass turns every hyphen of the target
into a space. -/
theorem c5_round_trip_counterexample :
    convert_text (forward_page_links "[[Target Page|Display]]") ≠
        "[[Display|Target Page]]" ∧
      convert_text (forward_page_links "[[A-B|C]]") = "[[A B|C]]" ∧
      ("[[A B|C]]" : String) ≠ "[[A-B|C]]" := by
  refine ⟨by decide, by decide, by decide⟩

/-- Claim C5, amended: one full forward-plus-reverse cycle reproduces a
recognized page link `[[t|d]]` exactly, for every nonempty target `t` and
display `d` made of plain characters (no `[`, `]`, `|`, `(`, `.`), as long
as the target contains no literal hyphen; the forward pass emits
`[[d|t-with-hyphens]]` and the reverse converter restores argument order
and spaces.  (A hyphen in the target is lossy — see the counterexample —
by the same hyphen/space normalization that makes header links lossy.) -/
theorem c5_page_link_round_trip (t d : List Char) (t0 : Char)
    (tt : List Char) (d0 : Char) (dt : List Char)
    (htsh : t = t0 :: tt) (hdsh : d = d0 :: dt)
    (htc : ∀ c ∈ t, plainLinkChar c = true)
    (hdc : ∀ c ∈ d, plainLinkChar c = true)
    (hth : '-' ∉ t) :
    convert_text
        (forward_page_links ⟨'[' :: '[' :: (t ++ '|' :: (d ++ [']', ']']))⟩)
      = ⟨'[' :: '[' :: (t ++ '|' :: (d ++ [']', ']']))⟩ := by
  have hplain_stop : ∀ (l : List Char), (∀ c ∈ l, plainLinkChar c = true) →
      ∀ c ∈ l, pageStop c = true := by
    intro l hl c hc
    have := hl c hc
    simp only [plainLinkChar, Bool.and_eq_true, decide_eq_true_eq] at this
    simp [pageStop, this.1.1.1.2, this.1.1.2]
  have hts : ∀ c ∈ t, pageStop c = true := hplain_stop t htc
  have hds : ∀ c ∈ d, pageStop c = true := hplain_stop d hdc
  have ht0 : t0 ≠ '[' := by
    have := htc t0 (by rw [htsh]; simp)
    simp only [plainLinkChar, Bool.and_eq_true, decide_eq_true_eq] at this
    exact this.1.1.1.1
  have hd0 : d0 ≠ '[' := by
    have := hdc d0 (by rw [hdsh]; simp)
    simp only [plainLinkChar, Bool.and_eq_true, decide_eq_true_eq] at this
    exact this.1.1.1.1
  have ht2s : ∀ c ∈ t.map spaceToHyph, pageStop c = true := by
    intro c hc
    rcases List.mem_map.mp hc with ⟨c', hc', rfl⟩
    by_cases hsp : c' = ' '
    · subst hsp
      decide
    · have := hts c' hc'
      simpa [spaceToHyph, hsp] using this
  have ht2sh : t.map spaceToHyph = spaceToHyph t0 :: tt.map spaceToHyph := by
    rw [htsh]
    rfl
  have ht20 : spaceToHyph t0 ≠ '[' := by
    by_cases hsp : t0 = ' '
    · subst hsp
      decide
    · simpa [spaceToHyph, hsp] using ht0
  -- step 1: the forward pass turns [[t|d]] into [[d|t-with-hyphens]]
  have hfor : forward_page_links ⟨'[' :: '[' :: (t ++ '|' :: (d ++ [']', ']']))⟩
      = ⟨forward_repl t d⟩ := by
    show String.mk (forwardSub
        ('[' :: '[' :: (t ++ '|' :: (d ++ [']', ']']))).length
        ('[' :: '[' :: (t ++ '|' :: (d ++ [']', ']'])))) = _
    rw [forwardSub_full '[' _ _
      (forwardTryMatch_link t d t0 tt htsh ht0 (by rw [hdsh]; simp) hts hds)]
  have hM : forward_repl t d
      = '[' :: '[' :: (d ++ '|' :: (t.map spaceToHyph ++ [']', ']'])) := by
    simp [forward_repl]
  -- step 2: reverse pass 1 turns [[d|t-with-hyphens]] back into [[t|d]]
  have hrev1 : reverse_page_links ⟨forward_repl t d⟩
      = ⟨'[' :: '[' :: (t ++ '|' :: (d ++ [']', ']']))⟩ := by
    rw [hM]
    show String.mk (sub1
        ('[' :: '[' :: (d ++ '|' :: (t.map spaceToHyph ++ [']', ']']))).length
        ('[' :: '[' :: (d ++ '|' :: (t.map spaceToHyph ++ [']', ']'])))) = _
    rw [sub1_full '[' _ _
      (tryMatch1_link d (t.map spaceToHyph) d0 dt hdsh hd0
        (by rw [ht2sh]; simp) hds ht2s)]
    have : repl1 d (t.map spaceToHyph)
        = '[' :: '[' :: (t ++ '|' :: (d ++ [']', ']'])) := by
      simp [repl1, hyph_space_cancel t hth]
    rw [this]
  -- steps 3 and 4: passes 2 and 3 cannot match the plain link
  have hL2 : '(' ∉ '[' :: '[' :: (t ++ '|' :: (d ++ [']', ']'])) :=
    not_mem_link '(' t d htc hdc (by decide) (by decide) (by decide)
      (by decide)
  have hL3 : '.' ∉ '[' :: '[' :: (t ++ '|' :: (d ++ [']', ']'])) :=
    not_mem_link '.' t d htc hdc (by decide) (by decide) (by decide)
      (by decide)
  calc convert_text
        (forward_page_links ⟨'[' :: '[' :: (t ++ '|' :: (d ++ [']', ']']))⟩)
      = convert_text ⟨forward_repl t d⟩ := by rw [hfor]
    _ = reverse_image_links (reverse_header_links
          ⟨'[' :: '[' :: (t ++ '|' :: (d ++ [']', ']']))⟩) := by
        unfold convert_text
        rw [hrev1]
    _ = reverse_image_links ⟨'[' :: '[' :: (t ++ '|' :: (d ++ [']', ']']))⟩ := by
        rw [reverse_header_links_id _ hL2]
    _ = ⟨'[' :: '[' :: (t ++ '|' :: (d ++ [']', ']']))⟩ :=
        reverse_image_links_id _ hL3

/-- Claim C5, witness: `c5_page_link_round_trip` applied to the claim's
own link `[[Target Page|Display]]`, whose forward image is
`[[Display|Target-Page]]` and whose round trip is the identity. -/
theorem c5_page_link_round_trip_witness :
    ((∀ c ∈ "Target Page".toList, plainLinkChar c = true) ∧
      (∀ c ∈ "Display".toList, plainLinkChar c = true) ∧
      '-' ∉ "Target Page".toList ∧
      forward_page_links "[[Target Page|Display]]" =
        "[[Display|Target-Page]]") ∧
      convert_text (forward_page_links "[[Target Page|Display]]") =
        "[[Target Page|Display]]" := by
  refine ⟨⟨by decide, by decide, by decide, by decide⟩, ?_⟩
  have h := c5_page_link_round_trip "Target Page".toList "Display".toList
    'T' "arget Page".toList 'D' "isplay".toList (by decide) (by decide)
    (by decide) (by decide) (by decide)
  have e1 : "[[Target Page|Display]]" =
      (⟨'[' :: '[' :: ("Target Page".toList ++
        '|' :: ("Display".toList ++ [']', ']']))⟩ : String) := by decide
  rw [e1]
  exact h

/-! ### Concrete fixtures used by witnesses -/

/-- An environment in which every subprocess call succeeds and the
changed-file oracles are empty. -/
def envNone : Env :=
  { failAt := none, diffOutput := fun _ => "", findOutput := "",
    isFile := fun _ => false, fileContent := fun _ => "",
    timestamp := "2025-01-01T00:00:00", restoreFails := false }

/-- A repository with exactly the three required branches. -/
def repoOk : Repo :=
  { gitDirExists := true, branches := ["obsidian", "ob_to_gh", "master"],
    remoteMaster := "r1" }

/-- A state with no drift: local master equals the remote head and equals
the recorded hash. -/
def mutNoDrift : Mut :=
  { currentBranch := "master", localMaster := "r1",
    syncFile := some ⟨some "r1", some "t0"⟩, vaultCommits := 0,
    checkoutTrace := [] }

/-! ### Claim C2: the drift criterion -/

/-- Claim C2: drift is declared iff the local published-branch revision
differs from the fetched remote revision, or no prior sync record exists,
or the local revision differs from the recorded one; absent drift the pass
returns to Idle with the state untouched, and under drift (with no
subprocess failure) the pass does not take the no-drift or
precondition-exit outcome. -/
theorem c2_drift_criterion (env : Env) (repo : Repo) (m : Mut)
    (h1 : repo.gitDirExists = true) (h2 : missingBranch repo = false)
    (h3 : env.failAt = none) :
    (has_external_changes repo m = true ↔
      (m.localMaster ≠ repo.remoteMaster ∨
        (load_sync_state m.syncFile).last_master_hash = none ∨
        (∃ h, (load_sync_state m.syncFile).last_master_hash = some h ∧
          m.localMaster ≠ h))) ∧
    (has_external_changes repo m = false →
      sync_from_wiki env repo m = (.noDrift, m)) ∧
    (has_external_changes repo m = true →
      (sync_from_wiki env repo m).1 ≠ .noDrift ∧
        (sync_from_wiki env repo m).1 ≠ .preconditionExit) := by
  refine ⟨?_, ?_, ?_⟩
  · unfold has_external_changes
    rcases hrec : (load_sync_state m.syncFile).last_master_hash with _ | hsh
    · by_cases hlr : m.localMaster = repo.remoteMaster <;> simp [hrec, hlr]
    · constructor
      · intro ht
        by_cases hlr : m.localMaster = repo.remoteMaster
        · by_cases hx : m.localMaster = hsh
          · subst hx
            simp [hrec, hlr] at ht
          · exact Or.inr (Or.inr ⟨hsh, rfl, hx⟩)
        · exact Or.inl hlr
      · intro hr
        rcases hr with hlr | hnone | ⟨hv, he, hne⟩
        · simp [hrec, hlr]
        · exact absurd hnone (by simp)
        · injection he with he'
          subst he'
          have hne' : ¬ hsh = m.localMaster := fun e => hne e.symm
          by_cases hlr : m.localMaster = repo.remoteMaster
          · have hne2 : ¬ hsh = repo.remoteMaster :=
              fun e => hne' (e.trans hlr.symm)
            simp [hrec, hlr, hne2]
          · simp [hrec, hlr]
  · intro h0
    simp [sync_from_wiki, h1, h2, h3, h0]
  · intro h0
    simp only [sync_from_wiki, h1, h2, h3, h0]
    rcases htb : tryBody env repo m with ⟨e | te, m2⟩
    · simp
    · cases te <;> simp [resultOfExit]

/-- Claim C2, witness: applying `c2_drift_criterion` at a drift-free
concrete state. -/
theorem c2_drift_criterion_witness :
    (repoOk.gitDirExists = true ∧ missingBranch repoOk = false ∧
      envNone.failAt = none ∧
      has_external_changes repoOk mutNoDrift = false) ∧
      sync_from_wiki envNone repoOk mutNoDrift = (.noDrift, mutNoDrift) :=
  ⟨⟨by decide, by decide, by decide, by decide⟩,
    (c2_drift_criterion envNone repoOk mutNoDrift (by decide) (by decide)
        (by decide)).2.1 (by decide)⟩

/-! ### Claim C8: a drift-free pass has no effect -/

/-- Claim C8: an invocation whose drift check detects no drift performs no
branch checkout, creates no commit, writes no sync-state file, and leaves
the whole mutable state exactly as found. -/
theorem c8_no_drift_frame (env : Env) (repo : Repo) (m : Mut)
    (h1 : repo.gitDirExists = true) (h2 : missingBranch repo = false)
    (h3 : env.failAt = none)
    (h0 : has_external_changes repo m = false) :
    sync_from_wiki env repo m = (.noDrift, m) ∧
      (sync_from_wiki env repo m).2.checkoutTrace = m.checkoutTrace ∧
      (sync_from_wiki env repo m).2.vaultCommits = m.vaultCommits ∧
      (sync_from_wiki env repo m).2.syncFile = m.syncFile := by
  have h : sync_from_wiki env repo m = (.noDrift, m) := by
    simp [sync_from_wiki, h1, h2, h3, h0]
  exact ⟨h, by rw [h], by rw [h], by rw [h]⟩

/-- Claim C8, witness: applying `c8_no_drift_frame` at a drift-free
concrete state. -/
theorem c8_no_drift_frame_witness :
    (repoOk.gitDirExists = true ∧ missingBranch repoOk = false ∧
      envNone.failAt = none ∧
      has_external_changes repoOk mutNoDrift = false) ∧
      (sync_from_wiki envNone repoOk mutNoDrift = (.noDrift, mutNoDrift) ∧
        (sync_from_wiki envNone repoOk mutNoDrift).2.checkoutTrace =
          mutNoDrift.checkoutTrace ∧
        (sync_from_wiki envNone repoOk mutNoDrift).2.vaultCommits =
          mutNoDrift.vaultCommits ∧
        (sync_from_wiki envNone repoOk mutNoDrift).2.syncFile =
          mutNoDrift.syncFile) :=
  ⟨⟨by decide, by decide, by decide, by decide⟩,
    c8_no_drift_frame envNone repoOk mutNoDrift (by decide) (by decide)
      (by decide) (by decide)⟩

/-! ### Helper lemmas about the orchestrator's pieces -/

theorem finallyRestore_syncFile (env : Env) (o : String) (m : Mut) :
    (finallyRestore env o m).syncFile = m.syncFile := by
  by_cases hc : m.currentBranch ≠ o
  · by_cases hr : env.restoreFails <;>
      simp [finallyRestore, doCheckout, hc, hr]
  · simp [finallyRestore, hc]

theorem finallyRestore_vaultCommits (env : Env) (o : String) (m : Mut) :
    (finallyRestore env o m).vaultCommits = m.vaultCommits := by
  by_cases hc : m.currentBranch ≠ o
  · by_cases hr : env.restoreFails <;>
      simp [finallyRestore, doCheckout, hc, hr]
  · simp [finallyRestore, hc]

theorem finallyRestore_localMaster (env : Env) (o : String) (m : Mut) :
    (finallyRestore env o m).localMaster = m.localMaster := by
  by_cases hc : m.currentBranch ≠ o
  · by_cases hr : env.restoreFails <;>
      simp [finallyRestore, doCheckout, hc, hr]
  · simp [finallyRestore, hc]

theorem finishSave_ok (env : Env) (m : Mut) (n : Nat) (te : TryExit)
    (m' : Mut) (h : finishSave env m n = (.ok te, m')) :
    m'.localMaster = m.localMaster ∧
      m'.syncFile = some ⟨some m.localMaster, some env.timestamp⟩ := by
  unfold finishSave at h
  split_ifs at h
  · simp at h
  · simp at h
  · rw [Prod.mk.injEq] at h
    obtain ⟨-, hm⟩ := h
    subst hm
    simp [save_sync_state, doCheckout]

theorem commitAndFinish_ok (env : Env) (m : Mut) (conv : List String)
    (te : TryExit) (m' : Mut)
    (h : commitAndFinish env m conv = (.ok te, m')) :
    m'.localMaster = m.localMaster ∧
      m'.syncFile = some ⟨some m.localMaster, some env.timestamp⟩ := by
  unfold commitAndFinish at h
  split_ifs at h
  · exact finishSave_ok env m conv.length te m' h
  · simp at h
  · simp at h
  · simpa using finishSave_ok env _ conv.length te m' h

theorem afterFiles_ok (env : Env) (m : Mut) (out : String) (te : TryExit)
    (m' : Mut) (h : afterFiles env m out = (.ok te, m')) :
    m'.localMaster = m.localMaster ∧
      m'.syncFile = some ⟨some m.localMaster, some env.timestamp⟩ := by
  unfold afterFiles at h
  split_ifs at h
  · simp at h
  · rw [Prod.mk.injEq] at h
    obtain ⟨-, hm⟩ := h
    subst hm
    simp [save_sync_state]
  · simp at h
  · rw [Prod.mk.injEq] at h
    obtain ⟨-, hm⟩ := h
    subst hm
    simp [save_sync_state]
  · simp at h
  · split at h
    · simp at h
    · have := commitAndFinish_ok env (doCheckout "obsidian" m) _ te m' h
      simpa [doCheckout] using this

theorem tryBody_ok (env : Env) (repo : Repo) (m : Mut) (te : TryExit)
    (m' : Mut) (h : tryBody env repo m = (.ok te, m')) :
    m'.localMaster = repo.remoteMaster ∧
      m'.syncFile = some ⟨some repo.remoteMaster, some env.timestamp⟩ := by
  rcases hrec : (load_sync_state m.syncFile).last_master_hash with _ | hs
  · simp only [tryBody, hrec] at h
    split_ifs at h
    · simp at h
    · simp at h
    · simp at h
    · have := afterFiles_ok env (pulled repo m) _ te m' h
      simpa [pulled, doCheckout] using this
  · simp only [tryBody, hrec] at h
    split_ifs at h
    · simp at h
    · simp at h
    · simp at h
    · have := afterFiles_ok env (pulled repo m) _ te m' h
      simpa [pulled, doCheckout] using this

/-! ### Claim C1: loop avoidance -/

/-- Claim C1: after any successfully completing pass (including one that
commits converted files to the vault branch), the drift check of an
immediately following invocation reports no drift and that invocation
takes no further action: the revision persisted in the state file at the
end of the pass equals the local published-branch revision the next check
observes.  The shared read-only `repo` makes "the remote did not move
between the two invocations" explicit. -/
theorem c1_loop_avoidance (env env2 : Env) (repo : Repo) (m : Mut)
    (hs : isSuccessR (sync_from_wiki env repo m).1 = true)
    (h2 : env2.failAt = none) :
    has_external_changes repo (sync_from_wiki env repo m).2 = false ∧
      sync_from_wiki env2 repo (sync_from_wiki env repo m).2 =
        (.noDrift, (sync_from_wiki env repo m).2) := by
  rcases hrun : sync_from_wiki env repo m with ⟨r, m'⟩
  rw [hrun] at hs
  simp only at hs ⊢
  unfold sync_from_wiki at hrun
  split_ifs at hrun with hgit hbl hmiss hdl hdf hdr hdrift hgo
  · rw [Prod.mk.injEq] at hrun
    obtain ⟨hr, hm⟩ := hrun
    subst hr
    simp [isSuccessR] at hs
  · rw [Prod.mk.injEq] at hrun
    obtain ⟨hr, hm⟩ := hrun
    subst hr
    simp [isSuccessR] at hs
  · rw [Prod.mk.injEq] at hrun
    obtain ⟨hr, hm⟩ := hrun
    subst hr
    simp [isSuccessR] at hs
  · rw [Prod.mk.injEq] at hrun
    obtain ⟨hr, hm⟩ := hrun
    subst hr
    simp [isSuccessR] at hs
  · rw [Prod.mk.injEq] at hrun
    obtain ⟨hr, hm⟩ := hrun
    subst hr
    simp [isSuccessR] at hs
  · rw [Prod.mk.injEq] at hrun
    obtain ⟨hr, hm⟩ := hrun
    subst hr
    simp [isSuccessR] at hs
  · rw [Prod.mk.injEq] at hrun
    obtain ⟨hr, hm⟩ := hrun
    subst hm
    refine ⟨hdrift, ?_⟩
    simp [sync_from_wiki, hgit, hmiss, h2, hdrift]
  · rw [Prod.mk.injEq] at hrun
    obtain ⟨hr, hm⟩ := hrun
    subst hr
    simp [isSuccessR] at hs
  · rcases htb : tryBody env repo m with ⟨e | te, mB⟩
    · simp only [htb] at hrun
      rw [Prod.mk.injEq] at hrun
      obtain ⟨hr, hm⟩ := hrun
      subst hr
      simp [isSuccessR] at hs
    · simp only [htb] at hrun
      rw [Prod.mk.injEq] at hrun
      obtain ⟨hr, hm⟩ := hrun
      obtain ⟨hlmB, hsfB⟩ := tryBody_ok env repo m te mB htb
      have hlm : m'.localMaster = repo.remoteMaster := by
        rw [← hm, finallyRestore_localMaster, hlmB]
      have hsf : m'.syncFile =
          some ⟨some repo.remoteMaster, some env.timestamp⟩ := by
        rw [← hm, finallyRestore_syncFile, hsfB]
      have hdrift2 : has_external_changes repo m' = false := by
        simp [has_external_changes, load_sync_state, hlm, hsf]
      refine ⟨hdrift2, ?_⟩
      simp [sync_from_wiki, hgit, hmiss, h2, hdrift2]

/-- An environment for a full sync pass: one changed markdown file whose
content the converter rewrites. -/
def envFull : Env :=
  { failAt := none, diffOutput := fun _ => "a.md", findOutput := "a.md",
    isFile := fun _ => true, fileContent := fun _ => "x [[a|b]] y",
    timestamp := "2025-01-02T00:00:00", restoreFails := false }

/-- A never-synced state sitting on the vault branch. -/
def mutFresh : Mut :=
  { currentBranch := "obsidian", localMaster := "r0", syncFile := none,
    vaultCommits := 0, checkoutTrace := [] }

/-- Claim C1, witness: a concrete pass that converts and commits one file
(the run returns `synced 1`), to which `c1_loop_avoidance` applies. -/
theorem c1_loop_avoidance_witness :
    (isSuccessR (sync_from_wiki envFull repoOk mutFresh).1 = true ∧
      (sync_from_wiki envFull repoOk mutFresh).1 = .synced 1 ∧
      (sync_from_wiki envFull repoOk mutFresh).2.vaultCommits = 1 ∧
      envNone.failAt = none) ∧
      (has_external_changes repoOk (sync_from_wiki envFull repoOk mutFresh).2
          = false ∧
        sync_from_wiki envNone repoOk (sync_from_wiki envFull repoOk mutFresh).2
          = (.noDrift, (sync_from_wiki envFull repoOk mutFresh).2)) :=
  ⟨⟨by decide, by decide, by decide, by decide⟩,
    c1_loop_avoidance envFull envNone repoOk mutFresh (by decide) (by decide)⟩

/-! ### Claim C6: transport failures are atomic -/

theorem finishSave_err (env : Env) (m : Mut) (n : Nat) (s : CallSite)
    (m' : Mut) (h : finishSave env m n = (.error s, m')) :
    s = .checkoutMaster2 ∨ s = .revSaveFinal := by
  unfold finishSave at h
  split_ifs at h
  · simp only [Prod.mk.injEq, Except.error.injEq] at h
    exact Or.inl h.1.symm
  · simp only [Prod.mk.injEq, Except.error.injEq] at h
    exact Or.inr h.1.symm
  · simp at h

theorem commitAndFinish_err (env : Env) (m : Mut) (conv : List String)
    (s : CallSite) (m' : Mut)
    (h : commitAndFinish env m conv = (.error s, m'))
    (hs : syncingOrCommitting s = true) :
    m'.syncFile = m.syncFile ∧ m'.vaultCommits = m.vaultCommits := by
  unfold commitAndFinish at h
  split_ifs at h
  · rcases finishSave_err env m conv.length s m' h with e | e <;> subst e <;>
      simp [syncingOrCommitting] at hs
  · simp only [Prod.mk.injEq, Except.error.injEq] at h
    rw [← h.2]
    exact ⟨rfl, rfl⟩
  · simp only [Prod.mk.injEq, Except.error.injEq] at h
    rw [← h.2]
    exact ⟨rfl, rfl⟩
  · rcases finishSave_err env _ conv.length s m' h with e | e <;> subst e <;>
      simp [syncingOrCommitting] at hs

theorem afterFiles_err (env : Env) (m : Mut) (out : String) (s : CallSite)
    (m' : Mut) (h : afterFiles env m out = (.error s, m'))
    (hs : syncingOrCommitting s = true) :
    m'.syncFile = m.syncFile ∧ m'.vaultCommits = m.vaultCommits := by
  unfold afterFiles at h
  split_ifs at h
  · simp only [Prod.mk.injEq, Except.error.injEq] at h
    rw [← h.2]
    exact ⟨rfl, rfl⟩
  · simp at h
  · simp only [Prod.mk.injEq, Except.error.injEq] at h
    rw [← h.2]
    exact ⟨rfl, rfl⟩
  · simp at h
  · simp only [Prod.mk.injEq, Except.error.injEq] at h
    rw [← h.2]
    exact ⟨rfl, rfl⟩
  · split at h
    · simp only [Prod.mk.injEq, Except.error.injEq] at h
      rw [← h.2]
      simp [doCheckout]
    · have := commitAndFinish_err env (doCheckout "obsidian" m) _ s m' h hs
      simpa [doCheckout] using this

theorem tryBody_err (env : Env) (repo : Repo) (m : Mut) (s : CallSite)
    (m' : Mut) (h : tryBody env repo m = (.error s, m'))
    (hs : syncingOrCommitting s = true) :
    m'.syncFile = m.syncFile ∧ m'.vaultCommits = m.vaultCommits := by
  rcases hrec : (load_sync_state m.syncFile).last_master_hash with _ | hsh
  · simp only [tryBody, hrec] at h
    split_ifs at h
    · simp only [Prod.mk.injEq, Except.error.injEq] at h
      rw [← h.2]
      exact ⟨rfl, rfl⟩
    · simp only [Prod.mk.injEq, Except.error.injEq] at h
      rw [← h.2]
      simp [doCheckout]
    · simp only [Prod.mk.injEq, Except.error.injEq] at h
      rw [← h.2]
      simp [pulled, doCheckout]
    · have := afterFiles_err env (pulled repo m) _ s m' h hs
      simpa [pulled, doCheckout] using this
  · simp only [tryBody, hrec] at h
    split_ifs at h
    · simp only [Prod.mk.injEq, Except.error.injEq] at h
      rw [← h.2]
      exact ⟨rfl, rfl⟩
    · simp only [Prod.mk.injEq, Except.error.injEq] at h
      rw [← h.2]
      simp [doCheckout]
    · simp only [Prod.mk.injEq, Except.error.injEq] at h
      rw [← h.2]
      simp [pulled, doCheckout]
    · have := afterFiles_err env (pulled repo m) _ s m' h hs
      simpa [pulled, doCheckout] using this

/-- Claim C6: if a version-control operation fails (or times out) at any
call site of the Syncing or Committing phase — in particular after files
were converted in the working tree but before the commit — the pass aborts
with exit status 1, no commit of this pass exists afterwards (the
vault-branch commit count is unchanged), and the sync-state file retains
its prior contents. -/
theorem c6_transport_atomicity (env : Env) (repo : Repo) (m : Mut)
    (s : CallSite)
    (hres : (sync_from_wiki env repo m).1 = .gitFailure s)
    (hsite : syncingOrCommitting s = true) :
    (sync_from_wiki env repo m).2.syncFile = m.syncFile ∧
      (sync_from_wiki env repo m).2.vaultCommits = m.vaultCommits ∧
      exitCode (sync_from_wiki env repo m).1 = 1 := by
  rcases hrun : sync_from_wiki env repo m with ⟨r, m'⟩
  rw [hrun] at hres
  simp only at hres ⊢
  subst hres
  unfold sync_from_wiki at hrun
  split_ifs at hrun with hgit hbl hmiss hdl hdf hdr hdrift hgo
  · rw [Prod.mk.injEq] at hrun
    exact absurd hrun.1 (by simp)
  · rw [Prod.mk.injEq] at hrun
    exact absurd hrun.1 (by simp)
  · rw [Prod.mk.injEq] at hrun
    exact absurd hrun.1 (by simp)
  · rw [Prod.mk.injEq] at hrun
    exact absurd hrun.1 (by simp)
  · rw [Prod.mk.injEq] at hrun
    exact absurd hrun.1 (by simp)
  · rw [Prod.mk.injEq] at hrun
    exact absurd hrun.1 (by simp)
  · rw [Prod.mk.injEq] at hrun
    exact absurd hrun.1 (by simp)
  · rw [Prod.mk.injEq] at hrun
    exact absurd hrun.1 (by simp)
  · rcases htb : tryBody env repo m with ⟨e | te, mB⟩
    · simp only [htb] at hrun
      rw [Prod.mk.injEq] at hrun
      obtain ⟨hr, hm⟩ := hrun
      simp only [RunResult.gitFailure.injEq] at hr
      subst hr
      obtain ⟨hsf, hvc⟩ := tryBody_err env repo m _ mB htb hsite
      refine ⟨?_, ?_, rfl⟩
      · rw [← hm, finallyRestore_syncFile, hsf]
      · rw [← hm, finallyRestore_vaultCommits, hvc]
    · simp only [htb] at hrun
      rw [Prod.mk.injEq] at hrun
      cases te <;> exact absurd hrun.1 (by simp [resultOfExit])

/-- An environment whose `git add --all` fails, after one file was
converted in the working tree. -/
def envAddFails : Env :=
  { failAt := some .addAll, diffOutput := fun _ => "a.md",
    findOutput := "a.md", isFile := fun _ => true,
    fileContent := fun _ => "x [[a|b]] y",
    timestamp := "2025-01-02T00:00:00", restoreFails := false }

/-- Claim C6, witness: `c6_transport_atomicity` applied to a pass whose
staging step fails after the conversion loop ran. -/
theorem c6_transport_atomicity_witness :
    ((sync_from_wiki envAddFails repoOk mutFresh).1 =
        .gitFailure .addAll ∧
      syncingOrCommitting CallSite.addAll = true) ∧
      ((sync_from_wiki envAddFails repoOk mutFresh).2.syncFile =
          mutFresh.syncFile ∧
        (sync_from_wiki envAddFails repoOk mutFresh).2.vaultCommits =
          mutFresh.vaultCommits ∧
        exitCode (sync_from_wiki envAddFails repoOk mutFresh).1 = 1) :=
  ⟨⟨by decide, by decide⟩,
    c6_transport_atomicity envAddFails repoOk mutFresh .addAll (by decide)
      (by decide)⟩

/-! ### Claim C7: branch validation -/

/-- A repository in which the vault branch `obsidian` is absent, but a
branch named `not_obsidian` contains the required name as a substring. -/
def repoShadow : Repo :=
  { gitDirExists := true,
    branches := ["not_obsidian", "ob_to_gh", "master"],
    remoteMaster := "r2" }

/-- An environment in which `git checkout obsidian` fails (as it would
when the branch does not exist) and one markdown file changed. -/
def envObsCheckoutFails : Env :=
  { failAt := some .checkoutObsidian, diffOutput := fun _ => "a.md",
    findOutput := "a.md", isFile := fun _ => true,
    fileContent := fun _ => "x [[a|b]] y",
    timestamp := "2025-01-02T00:00:00", restoreFails := false }

/-- Claim C7, counterexample: with the vault branch `obsidian` absent but
shadowed by `not_obsidian`, the run does not terminate at the
precondition check; it proceeds, mutates version-control state (the pull
advances the local master head), and only then aborts.  This contradicts
the claim that absence of a required branch terminates the run before
touching version-control state. -/
theorem c7_branch_check_counterexample :
    "obsidian" ∉ repoShadow.branches ∧
      (sync_from_wiki envObsCheckoutFails repoShadow mutNoDrift).1 ≠
        .preconditionExit ∧
      exitCode (sync_from_wiki envObsCheckoutFails repoShadow mutNoDrift).1
        = 1 ∧
      (sync_from_wiki envObsCheckoutFails repoShadow mutNoDrift).2.localMaster
        ≠ mutNoDrift.localMaster := by
  refine ⟨by decide, by decide, by decide, by decide⟩

/-- Claim C7, amended: the validation is Python's substring test
`branch not in branches` against the raw `git branch -a` listing.  If some
required branch name does not occur as a substring of the listing, the run
exits nonzero before any version-control state is touched; a required
branch that is absent but whose name occurs inside another listed branch
name escapes the check. -/
theorem c7_branch_check_amended (env : Env) (repo : Repo) (m : Mut)
    (h1 : repo.gitDirExists = true)
    (h2 : env.failAt ≠ some .branchList)
    (h3 : missingBranch repo = true) :
    sync_from_wiki env repo m = (.preconditionExit, m) ∧
      exitCode (sync_from_wiki env repo m).1 = 1 := by
  have h : sync_from_wiki env repo m = (.preconditionExit, m) := by
    simp [sync_from_wiki, h1, h2, h3]
  exact ⟨h, by rw [h]; rfl⟩

/-- A repository in which the forward-tracking branch is truly missing
(and not shadowed). -/
def repoMissing : Repo :=
  { gitDirExists := true, branches := ["obsidian", "master"],
    remoteMaster := "r1" }

/-- Claim C7, witness: `c7_branch_check_amended` applied to a repository
whose listing lacks `ob_to_gh`. -/
theorem c7_branch_check_amended_witness :
    (repoMissing.gitDirExists = true ∧
      envNone.failAt ≠ some CallSite.branchList ∧
      missingBranch repoMissing = true) ∧
      (sync_from_wiki envNone repoMissing mutNoDrift =
          (.preconditionExit, mutNoDrift) ∧
        exitCode (sync_from_wiki envNone repoMissing mutNoDrift).1 = 1) :=
  ⟨⟨by decide, by decide, by decide⟩,
    c7_branch_check_amended envNone repoMissing mutNoDrift (by decide)
      (by decide) (by decide)⟩

/-! ### Claim C10: drift with no markdown files -/

theorem finallyRestore_trace (env : Env) (o : String) (m : Mut) :
    (finallyRestore env o m).checkoutTrace = m.checkoutTrace ∨
      (finallyRestore env o m).checkoutTrace = m.checkoutTrace ++ [o] := by
  by_cases hc : m.currentBranch ≠ o
  · by_cases hr : env.restoreFails
    · left
      simp [finallyRestore, hc, hr]
    · right
      simp [finallyRestore, doCheckout, hc, hr]
  · left
    simp [finallyRestore, hc]

/-- Claim C10, counterexample: in a pass that detects drift but finds no
markdown files, the final restoration step checks out the branch the run
began on; if the run began on the vault branch `obsidian`, the pass does
check out the vault branch, contradicting the claim's "without ever
checking out the vault branch". -/
theorem c10_counterexample :
    (has_external_changes repoOk mutFresh = true ∧ envNone.failAt = none ∧
      changedOutput envNone mutFresh.syncFile = "") ∧
      isSuccessR (sync_from_wiki envNone repoOk mutFresh).1 = true ∧
      "obsidian" ∈ (sync_from_wiki envNone repoOk mutFresh).2.checkoutTrace := by
  refine ⟨⟨by decide, by decide, by decide⟩, by decide, by decide⟩

/-- Claim C10, amended: when drift is detected but the changed-file set
contains no markdown files (the listing is empty, or no listed path is an
existing `.md` file), the pass overwrites the sync-state file with the
current local published-branch revision (the freshly pulled remote head)
and returns successfully with no commit; the only branch checkouts it
performs are to the published branch and (possibly) the final restoration
of the branch that was checked out when the pass began. -/
theorem c10_no_md_frame (env : Env) (repo : Repo) (m : Mut)
    (h0 : env.failAt = none) (h1 : repo.gitDirExists = true)
    (h2 : missingBranch repo = false)
    (h3 : has_external_changes repo m = true)
    (h4 : changedOutput env m.syncFile = "" ∨
      mdFilesOf env (changedOutput env m.syncFile) = []) :
    ((sync_from_wiki env repo m).1 = .syncedNoOutput ∨
      (sync_from_wiki env repo m).1 = .syncedNoMd) ∧
      exitCode (sync_from_wiki env repo m).1 = 0 ∧
      (sync_from_wiki env repo m).2.syncFile =
        some ⟨some repo.remoteMaster, some env.timestamp⟩ ∧
      (sync_from_wiki env repo m).2.vaultCommits = m.vaultCommits ∧
      ∃ tr, (sync_from_wiki env repo m).2.checkoutTrace =
          m.checkoutTrace ++ tr ∧
        ∀ b ∈ tr, b = "master" ∨ b = m.currentBranch := by
  have htb : tryBody env repo m =
      afterFiles env (pulled repo m) (changedOutput env m.syncFile) := by
    rcases hrec : (load_sync_state m.syncFile).last_master_hash with _ | hsh <;>
      simp [tryBody, changedOutput, hrec, h0]
  have key : afterFiles env (pulled repo m) (changedOutput env m.syncFile) =
      (.ok .noOutput, save_sync_state env (pulled repo m).localMaster
        (pulled repo m)) ∨
      afterFiles env (pulled repo m) (changedOutput env m.syncFile) =
      (.ok .noMd, save_sync_state env (pulled repo m).localMaster
        (pulled repo m)) := by
    by_cases hout : changedOutput env m.syncFile = ""
    · left
      rw [hout]
      simp [afterFiles, h0]
    · right
      have hmd : mdFilesOf env (changedOutput env m.syncFile) = [] := by
        rcases h4 with h4 | h4
        · exact absurd h4 hout
        · exact h4
      simp [afterFiles, hout, hmd, h0]
  have main : ∀ rr : RunResult,
      sync_from_wiki env repo m =
        (rr, finallyRestore env m.currentBranch
          (save_sync_state env (pulled repo m).localMaster
            (pulled repo m))) →
      exitCode rr = 0 →
      ((sync_from_wiki env repo m).1 = rr ∧
        exitCode (sync_from_wiki env repo m).1 = 0 ∧
        (sync_from_wiki env repo m).2.syncFile =
          some ⟨some repo.remoteMaster, some env.timestamp⟩ ∧
        (sync_from_wiki env repo m).2.vaultCommits = m.vaultCommits ∧
        ∃ tr, (sync_from_wiki env repo m).2.checkoutTrace =
            m.checkoutTrace ++ tr ∧
          ∀ b ∈ tr, b = "master" ∨ b = m.currentBranch) := by
    intro rr hrun hec
    rw [hrun]
    refine ⟨rfl, hec, ?_, ?_, ?_⟩
    · rw [finallyRestore_syncFile]
      simp [save_sync_state, pulled, doCheckout]
    · rw [finallyRestore_vaultCommits]
      simp [save_sync_state, pulled, doCheckout]
    · rcases finallyRestore_trace env m.currentBranch
        (save_sync_state env (pulled repo m).localMaster (pulled repo m))
        with ht | ht
      · refine ⟨["master"], ?_, ?_⟩
        · rw [ht]
          simp [save_sync_state, pulled, doCheckout]
        · intro b hb
          simp at hb
          exact Or.inl hb
      · refine ⟨["master", m.currentBranch], ?_, ?_⟩
        · rw [ht]
          simp [save_sync_state, pulled, doCheckout]
        · intro b hb
          simp at hb
          rcases hb with hb | hb
          · exact Or.inl hb
          · exact Or.inr hb
  rcases key with haf | haf
  · have hrun : sync_from_wiki env repo m =
        (.syncedNoOutput, finallyRestore env m.currentBranch
          (save_sync_state env (pulled repo m).localMaster
            (pulled repo m))) := by
      simp [sync_from_wiki, h1, h2, h3, h0, htb, haf, resultOfExit]
    obtain ⟨ha, hb, hc, hd, he⟩ := main _ hrun rfl
    exact ⟨Or.inl ha, hb, hc, hd, he⟩
  · have hrun : sync_from_wiki env repo m =
        (.syncedNoMd, finallyRestore env m.currentBranch
          (save_sync_state env (pulled repo m).localMaster
            (pulled repo m))) := by
      simp [sync_from_wiki, h1, h2, h3, h0, htb, haf, resultOfExit]
    obtain ⟨ha, hb, hc, hd, he⟩ := main _ hrun rfl
    exact ⟨Or.inr ha, hb, hc, hd, he⟩

/-- An environment that reports one changed path which is not a markdown
file. -/
def envTxtOnly : Env :=
  { failAt := none, diffOutput := fun _ => "notes.txt",
    findOutput := "notes.txt", isFile := fun _ => true,
    fileContent := fun _ => "", timestamp := "2025-01-02T00:00:00",
    restoreFails := false }

/-- Claim C10, witness: `c10_no_md_frame` applied to a drifted state whose
only changed path is `notes.txt`. -/
theorem c10_no_md_frame_witness :
    (envTxtOnly.failAt = none ∧ repoOk.gitDirExists = true ∧
      missingBranch repoOk = false ∧
      has_external_changes repoOk mutFresh = true ∧
      mdFilesOf envTxtOnly (changedOutput envTxtOnly mutFresh.syncFile)
        = []) ∧
      (((sync_from_wiki envTxtOnly repoOk mutFresh).1 = .syncedNoOutput ∨
        (sync_from_wiki envTxtOnly repoOk mutFresh).1 = .syncedNoMd) ∧
        exitCode (sync_from_wiki envTxtOnly repoOk mutFresh).1 = 0 ∧
        (sync_from_wiki envTxtOnly repoOk mutFresh).2.syncFile =
          some ⟨some repoOk.remoteMaster, some envTxtOnly.timestamp⟩ ∧
        (sync_from_wiki envTxtOnly repoOk mutFresh).2.vaultCommits =
          mutFresh.vaultCommits ∧
        ∃ tr, (sync_from_wiki envTxtOnly repoOk mutFresh).2.checkoutTrace =
            mutFresh.checkoutTrace ++ tr ∧
          ∀ b ∈ tr, b = "master" ∨ b = mutFresh.currentBranch) :=
  ⟨⟨by decide, by decide, by decide, by decide, by decide⟩,
    c10_no_md_frame envTxtOnly repoOk mutFresh (by decide) (by decide)
      (by decide) (by decide) (Or.inr (by decide))⟩

end ObsiWiki
